import Mathlib

/-!
Verification development for the `audio_encoders_pytorch` module
(`src/audio_encoders_pytorch/modules.py`).

The Python source is shallowly embedded:
* length arithmetic of `nn.Conv1d` / `nn.ConvTranspose1d` is embedded as
  natural-number formulas (the torch output-length contracts);
* the einops reshapes of `Patcher` / `Unpatcher` and the channel packing of
  `STFT.encode1d` / `STFT.decode1d` are embedded as index transformations on
  shaped tensors whose entries are real numbers;
* construction-time `assert` statements are embedded as `Except`-returning
  initializers;
* learned submodules (convolutions, resnet blocks) are opaque function
  parameters: the theorems hold for every choice of learned weights;
* the elementwise mathematics of the variational bottleneck is embedded on
  flattened activation lists over `ℝ`, with the fresh Gaussian noise tensor
  passed as an explicit argument.
-/

namespace AudioEncoders

/-! ### 1-D convolution length arithmetic (torch contracts)

`nn.Conv1d` with dilation 1 maps a time length `L` to
`(L + 2*padding - (kernel-1) - 1) / stride + 1` (floor division);
`nn.ConvTranspose1d` with dilation 1 maps `L` to
`(L-1)*stride - 2*padding + (kernel-1) + output_padding + 1`.
The transposed formula is regrouped so the subtraction comes last, which is
equivalent over `ℕ` whenever the torch result is nonnegative. -/

/-- Output time length of `nn.Conv1d` (dilation 1). -/
def conv1dOutLen (L kernel stride padding : ℕ) : ℕ :=
  (L + 2 * padding - (kernel - 1) - 1) / stride + 1

/-- Output time length of `nn.ConvTranspose1d` (dilation 1). -/
def convTranspose1dOutLen (L kernel stride padding outputPadding : ℕ) : ℕ :=
  (L - 1) * stride + (kernel - 1) + outputPadding + 1 - 2 * padding

/-- Output time length of `Downsample1d` (modules.py lines 28-39): a `Conv1d`
with kernel `factor * kernel_multiplier + 1`, stride `factor`, and padding
`factor * (kernel_multiplier // 2)`. -/
def downsample1dOutLen (factor kernelMultiplier L : ℕ) : ℕ :=
  conv1dOutLen L (factor * kernelMultiplier + 1) factor
    (factor * (kernelMultiplier / 2))

/-- Output time length of `Upsample1d` (modules.py lines 42-54): for
`factor = 1` a stride-1 size-3 pad-1 `Conv1d`; otherwise a `ConvTranspose1d`
with kernel `factor * 2`, stride `factor`, padding `factor / 2 + factor % 2`
and output padding `factor % 2`. -/
def upsample1dOutLen (factor L : ℕ) : ℕ :=
  if factor = 1 then conv1dOutLen L 3 1 1
  else convTranspose1dOutLen L (factor * 2) factor (factor / 2 + factor % 2)
    (factor % 2)

theorem downsample1dOutLen_eq (f k m : ℕ) (hf : 1 ≤ f) (hk : k % 2 = 0)
    (hm : 1 ≤ m) : downsample1dOutLen f k (f * m) = m := by
  obtain ⟨m', rfl⟩ : ∃ m', m = m' + 1 := ⟨m - 1, by omega⟩
  have h2 : 2 * (f * (k / 2)) = f * k := by
    have : 2 * (k / 2) = k := by omega
    calc 2 * (f * (k / 2)) = f * (2 * (k / 2)) := by ring
    _ = f * k := by rw [this]
  unfold downsample1dOutLen conv1dOutLen
  rw [h2]
  have hnum : f * (m' + 1) + f * k - (f * k + 1 - 1) - 1 = f * m' + (f - 1) := by
    have hfk : f * (m' + 1) = f * m' + f := by ring
    omega
  rw [hnum, Nat.mul_add_div (by omega), Nat.div_eq_of_lt (by omega)]

theorem upsample1dOutLen_eq (f L : ℕ) (hf : 1 ≤ f) (hL : 1 ≤ L) :
    upsample1dOutLen f L = f * L := by
  unfold upsample1dOutLen
  by_cases h1 : f = 1
  · subst h1
    unfold conv1dOutLen
    simp
    omega
  · rw [if_neg h1]
    unfold convTranspose1dOutLen
    obtain ⟨L', rfl⟩ : ∃ L', L = L' + 1 := ⟨L - 1, by omega⟩
    have hq : f = 2 * (f / 2) + f % 2 := (Nat.div_add_mod f 2).symm ▸ by omega
    have hprod : (L' + 1 - 1) * f = L' * f := by simp
    rw [hprod]
    have hLf : f * (L' + 1) = L' * f + f := by ring
    rw [hLf]
    omega

/-- C3: for every integer `factor ≥ 1`, every even `kernelMultiplier`, and
every input time length `L = factor * m` (a positive multiple of `factor`),
the `Downsample1d` convolution outputs exactly `L / factor = m` samples, the
matching `Upsample1d` outputs exactly `factor ×` its input length, and the
composition Downsample-then-Upsample returns to length `L` exactly. -/
theorem downsample_upsample_roundtrip_length (f k m : ℕ) (hf : 1 ≤ f)
    (hk : k % 2 = 0) (hm : 1 ≤ m) :
    downsample1dOutLen f k (f * m) = f * m / f ∧
    upsample1dOutLen f m = f * m ∧
    upsample1dOutLen f (downsample1dOutLen f k (f * m)) = f * m := by
  have hd : downsample1dOutLen f k (f * m) = m := downsample1dOutLen_eq f k m hf hk hm
  have hu : upsample1dOutLen f m = f * m := upsample1dOutLen_eq f m hf hm
  refine ⟨?_, hu, ?_⟩
  · rw [hd, Nat.mul_div_cancel_left m (by omega)]
  · rw [hd, hu]

theorem downsample_upsample_roundtrip_length_witness :
    (1 ≤ 3 ∧ 4 % 2 = 0 ∧ 1 ≤ 5) ∧
    (downsample1dOutLen 3 4 (3 * 5) = 3 * 5 / 3 ∧
     upsample1dOutLen 3 5 = 3 * 5 ∧
     upsample1dOutLen 3 (downsample1dOutLen 3 4 (3 * 5)) = 3 * 5) :=
  ⟨⟨by decide, by decide, by decide⟩,
   downsample_upsample_roundtrip_length 3 4 5 (by decide) (by decide) (by decide)⟩

/-! ### Rank-3 / rank-4 tensors as shaped index functions

A tensor is a shape together with a total function on indices; two tensors
are compared on their shapes and on the entries at in-range indices (out of
range the functions are unconstrained, as in any strided view). -/

/-- A rank-3 tensor `[batch, channels, time]` with real entries. -/
structure Tensor3 where
  batch : ℕ
  channels : ℕ
  time : ℕ
  data : ℕ → ℕ → ℕ → ℝ

/-- A rank-4 spectral tensor `[batch, channels, freq, frames]`. -/
structure Tensor4 where
  batch : ℕ
  channels : ℕ
  freq : ℕ
  frames : ℕ
  data : ℕ → ℕ → ℕ → ℕ → ℝ

/-- The einops reshape of `Patcher.forward` (modules.py line 153):
`rearrange(x, "b c (l p) -> b (c p) l", p=patch_size)`.  Einops decomposes
the time index `t` of the input as `t = l * p + pi` (outer `l`, inner `pi`)
and composes the output channel index as `c * p + pi`. -/
def patcherRearrange (p : ℕ) (x : Tensor3) : Tensor3 where
  batch := x.batch
  channels := x.channels * p
  time := x.time / p
  data := fun b c l => x.data b (c / p) (l * p + c % p)

/-- The einops reshape of `Unpatcher.forward` (modules.py line 171):
`rearrange(x, "b (c p) l -> b c (l p)", p=patch_size)`. -/
def unpatcherRearrange (p : ℕ) (x : Tensor3) : Tensor3 where
  batch := x.batch
  channels := x.channels / p
  time := x.time * p
  data := fun b c l => x.data b (c * p + l % p) (l / p)

/-- C4: the `Unpatcher` reshape is the exact inverse of the `Patcher`
reshape, in either order: composing the two reshapes preserves the shape
`[b, c, l]` and every in-range entry exactly, for any patch size `p > 0`
(with `p ∣ time` for Patcher-then-Unpatcher and `p ∣ channels` for
Unpatcher-then-Patcher, the divisibility the surrounding network
guarantees). -/
theorem patcher_unpatcher_rearrange_inverse (p : ℕ) (x y : Tensor3)
    (hp : 0 < p) (hx : p ∣ x.time) (hy : p ∣ y.channels) :
    ((unpatcherRearrange p (patcherRearrange p x)).batch = x.batch ∧
     (unpatcherRearrange p (patcherRearrange p x)).channels = x.channels ∧
     (unpatcherRearrange p (patcherRearrange p x)).time = x.time ∧
     ∀ b c l, b < x.batch → c < x.channels → l < x.time →
       (unpatcherRearrange p (patcherRearrange p x)).data b c l = x.data b c l) ∧
    ((patcherRearrange p (unpatcherRearrange p y)).batch = y.batch ∧
     (patcherRearrange p (unpatcherRearrange p y)).channels = y.channels ∧
     (patcherRearrange p (unpatcherRearrange p y)).time = y.time ∧
     ∀ b c l, b < y.batch → c < y.channels → l < y.time →
       (patcherRearrange p (unpatcherRearrange p y)).data b c l = y.data b c l) := by
  constructor
  · refine ⟨rfl, ?_, Nat.div_mul_cancel hx, ?_⟩
    · show x.channels * p / p = x.channels
      rw [Nat.mul_comm]
      exact Nat.mul_div_cancel_left _ hp
    · intro b c l _ _ _
      show x.data b ((c * p + l % p) / p) (l / p * p + (c * p + l % p) % p) =
        x.data b c l
      have h1 : (c * p + l % p) / p = c := by
        rw [Nat.add_comm, Nat.add_mul_div_right _ _ hp,
          Nat.div_eq_of_lt (Nat.mod_lt l hp), Nat.zero_add]
      have h2 : (c * p + l % p) % p = l % p := by
        rw [Nat.add_comm, Nat.add_mul_mod_self_right,
          Nat.mod_mod_of_dvd l dvd_rfl]
      rw [h1, h2, Nat.mul_comm, Nat.div_add_mod]
  · refine ⟨rfl, Nat.div_mul_cancel hy, ?_, ?_⟩
    · show y.time * p / p = y.time
      rw [Nat.mul_comm]
      exact Nat.mul_div_cancel_left _ hp
    · intro b c l _ _ _
      show y.data b (c / p * p + (l * p + c % p) % p) ((l * p + c % p) / p) =
        y.data b c l
      have h1 : (l * p + c % p) % p = c % p := by
        rw [Nat.add_comm, Nat.add_mul_mod_self_right,
          Nat.mod_mod_of_dvd c dvd_rfl]
      have h2 : (l * p + c % p) / p = l := by
        rw [Nat.add_comm, Nat.add_mul_div_right _ _ hp,
          Nat.div_eq_of_lt (Nat.mod_lt c hp), Nat.zero_add]
      rw [h1, h2, Nat.mul_comm, Nat.div_add_mod]

theorem patcher_unpatcher_rearrange_inverse_witness :
    (0 < 2 ∧ 2 ∣ (6 : ℕ) ∧ 2 ∣ (4 : ℕ)) ∧
    ((unpatcherRearrange 2 (patcherRearrange 2
        ⟨1, 3, 6, fun b c l => (b + 10 * c + 100 * l : ℝ)⟩)).channels = 3 ∧
     (patcherRearrange 2 (unpatcherRearrange 2
        ⟨1, 4, 5, fun b c l => (b + 10 * c + 100 * l : ℝ)⟩)).time = 5) := by
  have h := patcher_unpatcher_rearrange_inverse 2
    ⟨1, 3, 6, fun b c l => (b + 10 * c + 100 * l : ℝ)⟩
    ⟨1, 4, 5, fun b c l => (b + 10 * c + 100 * l : ℝ)⟩
    (by decide) (by decide) (by decide)
  exact ⟨⟨by decide, by decide, by decide⟩, h.1.2.1, h.2.2.2.1⟩

/-! ### STFT helper (modules.py lines 454-534)

Only the parts the claims need are embedded: the construction-time
configuration, the channel packing of `encode1d` / unpacking of `decode1d`,
and the output-length selection of `decode`.  The Fourier transform itself
is an external torch collaborator. -/

/-- Configuration of the `STFT` helper module, as stored by its
constructor. -/
structure STFTCfg where
  numFFT : ℕ
  hopLength : ℕ
  windowLength : ℕ
  length : Option ℕ
  useComplex : Bool

/-- The channel stacking of `STFT.encode1d` (modules.py lines 523-528):
both spectral tensors are reshaped `b c f l -> b (c f) l` (channel-major,
frequency-minor) and concatenated along the channel axis, `A` before `B`.
The packing itself is the same for `use_complex = True` (real/imaginary)
and `False` (magnitude/phase); only the contents of `A`/`B` differ. -/
def stftStack1d (A B : Tensor4) : Tensor3 where
  batch := A.batch
  channels := A.channels * A.freq + B.channels * B.freq
  time := A.frames
  data := fun bi ch li =>
    if ch < A.channels * A.freq then A.data bi (ch / A.freq) (ch % A.freq) li
    else B.data bi ((ch - A.channels * A.freq) / B.freq)
      ((ch - A.channels * A.freq) % B.freq) li

/-- The channel unstacking of `STFT.decode1d` (modules.py lines 530-533):
`chunk(chunks=2, dim=1)` splits the channel axis into two halves (the first
of size `⌈channels/2⌉`), and each half is reshaped `b (c f) l -> b c f l`
with `f = num_fft // 2 + 1`. -/
def stftUnstack1d (fBins : ℕ) (x : Tensor3) : Tensor4 × Tensor4 :=
  let half := (x.channels + 1) / 2
  (⟨x.batch, half / fBins, fBins, x.time,
      fun bi ci fi li => x.data bi (ci * fBins + fi) li⟩,
   ⟨x.batch, (x.channels - half) / fBins, fBins, x.time,
      fun bi ci fi li => x.data bi (half + (ci * fBins + fi)) li⟩)

/-- C5: for spectral tensors `A`, `B` of equal shape `[b, c, f, l]` with
`f = num_fft // 2 + 1`, the unstacking of `STFT.decode1d` is the exact
inverse of the channel stacking of `STFT.encode1d`: both recovered tensors
have the original shape and agree with `A` resp. `B` on every in-range
index, for either value of `use_complex` (the packing never inspects it). -/
theorem stft_stack_unstack_inverse (cfg : STFTCfg) (A B : Tensor4)
    (hfA : A.freq = cfg.numFFT / 2 + 1)
    (hb : B.batch = A.batch) (hc : B.channels = A.channels)
    (hf : B.freq = A.freq) (hl : B.frames = A.frames) :
    ((stftUnstack1d (cfg.numFFT / 2 + 1) (stftStack1d A B)).1.batch = A.batch ∧
     (stftUnstack1d (cfg.numFFT / 2 + 1) (stftStack1d A B)).1.channels = A.channels ∧
     (stftUnstack1d (cfg.numFFT / 2 + 1) (stftStack1d A B)).1.freq = A.freq ∧
     (stftUnstack1d (cfg.numFFT / 2 + 1) (stftStack1d A B)).1.frames = A.frames ∧
     ∀ bi ci fi li, ci < A.channels → fi < A.freq →
       (stftUnstack1d (cfg.numFFT / 2 + 1) (stftStack1d A B)).1.data bi ci fi li =
         A.data bi ci fi li) ∧
    ((stftUnstack1d (cfg.numFFT / 2 + 1) (stftStack1d A B)).2.batch = B.batch ∧
     (stftUnstack1d (cfg.numFFT / 2 + 1) (stftStack1d A B)).2.channels = B.channels ∧
     (stftUnstack1d (cfg.numFFT / 2 + 1) (stftStack1d A B)).2.freq = B.freq ∧
     (stftUnstack1d (cfg.numFFT / 2 + 1) (stftStack1d A B)).2.frames = B.frames ∧
     ∀ bi ci fi li, ci < B.channels → fi < B.freq →
       (stftUnstack1d (cfg.numFFT / 2 + 1) (stftStack1d A B)).2.data bi ci fi li =
         B.data bi ci fi li) := by
  set f := cfg.numFFT / 2 + 1 with hfdef
  have hfpos : 0 < f := Nat.succ_pos _
  have hch : (stftStack1d A B).channels = A.channels * f + A.channels * f := by
    show A.channels * A.freq + B.channels * B.freq = _
    rw [hfA, hc, hf, hfA]
  have hhalf : ((stftStack1d A B).channels + 1) / 2 = A.channels * f := by
    rw [hch]
    omega
  constructor
  · refine ⟨rfl, ?_, hfA.symm, rfl, ?_⟩
    · show ((stftStack1d A B).channels + 1) / 2 / f = A.channels
      rw [hhalf, Nat.mul_div_cancel _ hfpos]
    · intro bi ci fi li hci hfi
      show (stftStack1d A B).data bi (ci * f + fi) li = A.data bi ci fi li
      have hlt : ci * f + fi < A.channels * A.freq := by
        rw [hfA]
        calc ci * f + fi < ci * f + f := by omega
        _ = (ci + 1) * f := by ring
        _ ≤ A.channels * f := Nat.mul_le_mul_right f hci
      show (if ci * f + fi < A.channels * A.freq then
          A.data bi ((ci * f + fi) / A.freq) ((ci * f + fi) % A.freq) li
        else _) = A.data bi ci fi li
      rw [if_pos hlt, hfA]
      have h1 : (ci * f + fi) / f = ci := by
        rw [Nat.add_comm, Nat.add_mul_div_right _ _ hfpos,
          Nat.div_eq_of_lt (hfA ▸ hfi), Nat.zero_add]
      have h2 : (ci * f + fi) % f = fi := by
        rw [Nat.add_comm, Nat.add_mul_mod_self_right,
          Nat.mod_eq_of_lt (hfA ▸ hfi)]
      rw [h1, h2]
  · refine ⟨hb.symm, ?_, (hf.trans hfA).symm, hl.symm, ?_⟩
    · show ((stftStack1d A B).channels - ((stftStack1d A B).channels + 1) / 2) / f
        = B.channels
      rw [hhalf, hch, hc]
      rw [Nat.add_sub_cancel, Nat.mul_div_cancel _ hfpos]
    · intro bi ci fi li hci hfi
      have hfi' : fi < f := by rw [hf, hfA] at hfi; exact hfi
      show (stftStack1d A B).data bi
        (((stftStack1d A B).channels + 1) / 2 + (ci * f + fi)) li =
        B.data bi ci fi li
      rw [hhalf]
      have hge : ¬ A.channels * f + (ci * f + fi) < A.channels * A.freq := by
        rw [hfA]
        omega
      show (if A.channels * f + (ci * f + fi) < A.channels * A.freq then _
        else B.data bi
          ((A.channels * f + (ci * f + fi) - A.channels * A.freq) / B.freq)
          ((A.channels * f + (ci * f + fi) - A.channels * A.freq) % B.freq) li)
        = B.data bi ci fi li
      rw [if_neg hge, hfA]
      have hsub : A.channels * f + (ci * f + fi) - A.channels * f = ci * f + fi := by
        omega
      rw [hsub, hf, hfA]
      have h1 : (ci * f + fi) / f = ci := by
        rw [Nat.add_comm, Nat.add_mul_div_right _ _ hfpos,
          Nat.div_eq_of_lt hfi', Nat.zero_add]
      have h2 : (ci * f + fi) % f = fi := by
        rw [Nat.add_comm, Nat.add_mul_mod_self_right,
          Nat.mod_eq_of_lt hfi']
      rw [h1, h2]

theorem stft_stack_unstack_inverse_witness :
    ((stftUnstack1d (4 / 2 + 1)
        (stftStack1d ⟨1, 2, 3, 5, fun b c fr l => (b + c + fr + l : ℝ)⟩
          ⟨1, 2, 3, 5, fun b c fr l => (b + c + fr - l : ℝ)⟩)).1.channels = 2) ∧
    ((stftUnstack1d (4 / 2 + 1)
        (stftStack1d ⟨1, 2, 3, 5, fun b c fr l => (b + c + fr + l : ℝ)⟩
          ⟨1, 2, 3, 5, fun b c fr l => (b + c + fr - l : ℝ)⟩)).2.channels = 2) := by
  have h := stft_stack_unstack_inverse ⟨4, 2, 4, none, true⟩
    ⟨1, 2, 3, 5, fun b c fr l => (b + c + fr + l : ℝ)⟩
    ⟨1, 2, 3, 5, fun b c fr l => (b + c + fr - l : ℝ)⟩
    rfl rfl rfl rfl rfl
  exact ⟨h.1.2.1, h.2.2.1⟩

/-- Modelled from the spec: `closest_power_2` is imported from `utils.py`,
which is not part of the provided sources; per the spec (section 4.7) the
default inverse length is "the smallest power-of-two ≥ frames × hopLength",
so this function returns the smallest power of two that is at least `n`. -/
def closest_power_2 (n : ℕ) : ℕ :=
  2 ^ Nat.clog 2 n

/-- Modelled from the spec: the `default(a, b)` helper from `utils.py`
(not in the provided sources) returns `a` when `a` exists (is not `None`)
and `b` otherwise. -/
def pydefault {α : Type} (a : Option α) (b : α) : α :=
  match a with
  | some v => v
  | none => b

/-- Output waveform length of `STFT.decode` (modules.py lines 497-521):
`l` is the last dimension of the spectral input (`frames`), the fallback
length is `closest_power_2(l * hop_length)`, and `torch.istft` is called
with `length=default(self.length, length)`, so it returns exactly that many
samples. -/
def stftDecodeOutLen (cfg : STFTCfg) (frames : ℕ) : ℕ :=
  pydefault cfg.length (closest_power_2 (frames * cfg.hopLength))

/-- C7: when the `STFT` was constructed with `length = None`, `decode`
produces a waveform whose length is the smallest power of two that is at
least `frames × hopLength` (it is a power of two, at least the product, and
no smaller power of two reaches the product); when a length was fixed at
construction, the output has exactly that length. -/
theorem stft_decode_out_len_spec (cfg : STFTCfg) (frames : ℕ) :
    (cfg.length = none →
      (∃ k, stftDecodeOutLen cfg frames = 2 ^ k) ∧
      frames * cfg.hopLength ≤ stftDecodeOutLen cfg frames ∧
      ∀ m k, m = 2 ^ k → frames * cfg.hopLength ≤ m →
        stftDecodeOutLen cfg frames ≤ m) ∧
    (∀ L, cfg.length = some L → stftDecodeOutLen cfg frames = L) := by
  constructor
  · intro hnone
    have hval : stftDecodeOutLen cfg frames =
        2 ^ Nat.clog 2 (frames * cfg.hopLength) := by
      unfold stftDecodeOutLen pydefault closest_power_2
      rw [hnone]
    refine ⟨⟨Nat.clog 2 (frames * cfg.hopLength), hval⟩, ?_, ?_⟩
    · rw [hval]
      exact Nat.le_pow_clog (by omega) _
    · intro m k hm hle
      rw [hval, hm]
      exact Nat.pow_le_pow_right (by omega)
        ((Nat.le_pow_iff_clog_le (by omega)).mp (hm ▸ hle))
  · intro L hL
    unfold stftDecodeOutLen pydefault
    rw [hL]

theorem stft_decode_out_len_spec_witness :
    ((∃ k, stftDecodeOutLen ⟨1023, 256, 1023, none, false⟩ 3 = 2 ^ k) ∧
     3 * 256 ≤ stftDecodeOutLen ⟨1023, 256, 1023, none, false⟩ 3) ∧
    stftDecodeOutLen ⟨1023, 256, 1023, some 4000, false⟩ 3 = 4000 :=
  ⟨⟨((stft_decode_out_len_spec ⟨1023, 256, 1023, none, false⟩ 3).1 rfl).1,
    ((stft_decode_out_len_spec ⟨1023, 256, 1023, none, false⟩ 3).1 rfl).2.1⟩,
   (stft_decode_out_len_spec ⟨1023, 256, 1023, some 4000, false⟩ 3).2 4000 rfl⟩

/-! ### Variational bottleneck (modules.py lines 663-699)

Activations are flattened to lists of reals; elementwise torch operations
become `List.map` / `List.zipWith`.  The learned 1×1 convolution
`to_mean_and_std` followed by `chunk(chunks=2, dim=1)` is an opaque learned
map producing the two raw halves; the fresh standard-normal tensor
`eps = torch.randn_like(std)` is an explicit argument, as the theorems hold
for every drawn noise value. -/

/-- `gaussian_sample(mean, logvar)` (modules.py lines 663-667):
`std = exp(0.5 * logvar)`, `sample = mean + std * eps`, elementwise. -/
noncomputable def gaussian_sample (mean logvar eps : List ℝ) : List ℝ :=
  let std := logvar.map fun v => Real.exp (0.5 * v)
  List.zipWith (· + ·) mean (List.zipWith (· * ·) std eps)

/-- `kl_loss(mean, logvar)` (modules.py lines 670-673):
`losses = mean² + exp(logvar) - logvar - 1` elementwise, then the mean over
all elements. -/
noncomputable def kl_loss (mean logvar : List ℝ) : ℝ :=
  let losses := List.zipWith (fun m v => m ^ 2 + Real.exp v - v - 1) mean logvar
  losses.sum / losses.length

/-- A `VariationalBottleneck` instance: the loss weight fixed at
construction and the learned `to_mean_and_std` 1×1 convolution composed
with `chunk(chunks=2, dim=1)`, yielding the two raw halves. -/
structure VariationalBottleneckM where
  lossWeight : ℝ
  toMeanAndStd : List ℝ → List ℝ × List ℝ

/-- The remapped mean of `VariationalBottleneck.forward` (line 691):
`mean = tanh(mean)`. -/
noncomputable def vbMean (m : VariationalBottleneckM) (x : List ℝ) : List ℝ :=
  (m.toMeanAndStd x).1.map Real.tanh

/-- The remapped std of `VariationalBottleneck.forward` (line 692):
`std = tanh(std) + 1`. -/
noncomputable def vbStd (m : VariationalBottleneckM) (x : List ℝ) : List ℝ :=
  (m.toMeanAndStd x).2.map fun v => Real.tanh v + 1

/-- The info record reported by `VariationalBottleneck.forward`
(lines 694-698). -/
structure VBInfo where
  variational_kl_loss : ℝ
  variational_mean : List ℝ
  variational_std : List ℝ

/-- `VariationalBottleneck.forward` (modules.py lines 686-699) with the
fresh noise `eps` explicit: splits the projection into the two halves,
remaps them with `tanh`, draws `out = gaussian_sample(mean, std)` and
reports `kl_loss(mean, std) * loss_weight` with the remapped tensors. -/
noncomputable def vbForward (m : VariationalBottleneckM) (x eps : List ℝ) :
    List ℝ × VBInfo :=
  let mean := vbMean m x
  let std := vbStd m x
  (gaussian_sample mean std eps,
   ⟨kl_loss mean std * m.lossWeight, mean, std⟩)

theorem tanh_lt_one' (x : ℝ) : Real.tanh x < 1 := by
  rw [Real.tanh_eq_sinh_div_cosh, div_lt_one (Real.cosh_pos x)]
  exact Real.sinh_lt_cosh x

theorem neg_one_lt_tanh' (x : ℝ) : -1 < Real.tanh x := by
  have h := tanh_lt_one' (-x)
  rw [Real.tanh_neg] at h
  linarith

/-- The learned projection of the concrete counterexample instance: its
chunked halves are `[0]` and `[0]` on every input. -/
def cexToMeanAndStd : List ℝ → List ℝ × List ℝ := fun _ => ([0], [0])

/-- The concrete counterexample instance (loss weight 1). -/
def cexVB : VariationalBottleneckM := ⟨1, cexToMeanAndStd⟩

/-- C1 counterexample: at the instance whose raw halves are `[0]`/`[0]` and
with noise `ε = [1]`, the forward pass returns `[exp (1/2)]` (because the
remapped `std = [1]` is handed to `gaussian_sample` in its log-variance
slot), while `mean + std ⊙ ε = [1]`; the claimed identity fails. -/
theorem vb_sample_not_scaled_by_std :
    (vbForward cexVB [] [1]).1 ≠
      List.zipWith (· + ·) (vbMean cexVB [])
        (List.zipWith (· * ·) (vbStd cexVB []) [1]) := by
  simp only [vbForward, gaussian_sample, vbMean, vbStd, cexVB, cexToMeanAndStd,
    List.map_cons, List.map_nil, List.zipWith_cons_cons, List.zipWith_nil_right,
    List.zipWith_nil_left, Real.tanh_zero]
  intro h
  have h1 : (0 : ℝ) + Real.exp (0.5 * (0 + 1)) * 1 = 0 + (0 + 1) * 1 :=
    List.head_eq_of_cons_eq h
  have h2 : Real.exp (1 / 2) = 1 := by
    have : (0.5 : ℝ) * (0 + 1) = 1 / 2 := by norm_num
    rw [this] at h1
    linarith
  rw [Real.exp_eq_one_iff] at h2
  norm_num at h2

/-- C1 (amended): for every input `x` and every drawn noise `ε`, the
returned latent equals `mean + exp(std / 2) ⊙ ε` — the remapped `std` is
passed to `gaussian_sample` as a log-variance, so the noise scale is
`exp(std / 2)`, not `std` itself — where `mean = tanh(first half) ∈ [-1,1]`
and `std = tanh(second half) + 1 ∈ [0,2]`. -/
theorem vb_sample_scaled_by_exp_half_std (m : VariationalBottleneckM)
    (x eps : List ℝ) :
    (vbForward m x eps).1 =
      List.zipWith (· + ·) (vbMean m x)
        (List.zipWith (· * ·) ((vbStd m x).map fun s => Real.exp (s / 2)) eps) ∧
    (∀ a ∈ vbMean m x, -1 ≤ a ∧ a ≤ 1) ∧
    (∀ s ∈ vbStd m x, 0 ≤ s ∧ s ≤ 2) := by
  refine ⟨?_, ?_, ?_⟩
  · show gaussian_sample (vbMean m x) (vbStd m x) eps = _
    unfold gaussian_sample
    have hmap : ((vbStd m x).map fun v => Real.exp (0.5 * v)) =
        (vbStd m x).map fun s => Real.exp (s / 2) := by
      refine List.map_congr_left fun s _ => ?_
      congr 1
      ring
    rw [hmap]
  · intro a ha
    obtain ⟨v, _, rfl⟩ := List.mem_map.mp ha
    exact ⟨(neg_one_lt_tanh' v).le, (tanh_lt_one' v).le⟩
  · intro s hs
    obtain ⟨v, _, rfl⟩ := List.mem_map.mp hs
    constructor
    · have := neg_one_lt_tanh' v
      linarith
    · have := tanh_lt_one' v
      linarith

theorem vb_sample_scaled_by_exp_half_std_witness :
    (vbForward cexVB [] [1]).1 =
      List.zipWith (· + ·) (vbMean cexVB [])
        (List.zipWith (· * ·)
          ((vbStd cexVB []).map fun s => Real.exp (s / 2)) [1]) ∧
    (∀ a ∈ vbMean cexVB [], -1 ≤ a ∧ a ≤ 1) ∧
    (∀ s ∈ vbStd cexVB [], 0 ≤ s ∧ s ≤ 2) :=
  vb_sample_scaled_by_exp_half_std cexVB [] [1]

/-- C2: the reported `variational_kl_loss` is exactly
`mean(mean² + exp(std) - std - 1) × lossWeight`, with the tanh-remapped
mean and the tanh-remapped-plus-one std substituted literally (the `std`
used as if it were a log-variance in the exponent), averaged over all
elements.  The hypothesis records that the two chunked halves of the
doubled-channel projection have equal element counts. -/
theorem vb_kl_literal_formula (m : VariationalBottleneckM) (x eps : List ℝ)
    (hlen : (m.toMeanAndStd x).1.length = (m.toMeanAndStd x).2.length) :
    (vbForward m x eps).2.variational_kl_loss =
      (List.zipWith (fun a b =>
          Real.tanh a ^ 2 + Real.exp (Real.tanh b + 1) - (Real.tanh b + 1) - 1)
        (m.toMeanAndStd x).1 (m.toMeanAndStd x).2).sum /
        ((m.toMeanAndStd x).1.length) * m.lossWeight := by
  show kl_loss (vbMean m x) (vbStd m x) * m.lossWeight = _
  unfold kl_loss vbMean vbStd
  simp only [List.zipWith_map, List.length_zipWith, List.length_map, hlen,
    min_self]

theorem vb_kl_literal_formula_witness :
    (cexVB.toMeanAndStd []).1.length = (cexVB.toMeanAndStd []).2.length ∧
    (vbForward cexVB [] [1]).2.variational_kl_loss =
      (List.zipWith (fun a b =>
          Real.tanh a ^ 2 + Real.exp (Real.tanh b + 1) - (Real.tanh b + 1) - 1)
        (cexVB.toMeanAndStd []).1 (cexVB.toMeanAndStd []).2).sum /
        ((cexVB.toMeanAndStd []).1.length) * cexVB.lossWeight :=
  ⟨rfl, vb_kl_literal_formula cexVB [] [1] rfl⟩

/-! ### Construction-time checks (C6)

Each Python `__init__` is embedded as an `Except`-returning initializer: an
`assert` whose condition fails, or an out-of-range list index, produces an
error; otherwise the stored configuration is returned.  `num_layers =
len(multipliers) - 1` is computed over `ℤ`, as in Python (it is `-1` for an
empty `multipliers`). -/

/-- Stored parameters of a 1-D convolution. -/
structure Conv1dCfg where
  inChannels : ℕ
  outChannels : ℕ
  kernelSize : ℕ
  stride : ℕ
  padding : ℕ

/-- `Downsample1d` (modules.py lines 28-39): asserts that the kernel
multiplier is even, then builds the strided convolution. -/
def downsample1dInit (inC outC factor kernelMultiplier : ℕ) :
    Except String Conv1dCfg :=
  if kernelMultiplier % 2 = 0 then
    Except.ok ⟨inC, outC, factor * kernelMultiplier + 1, factor,
      factor * (kernelMultiplier / 2)⟩
  else Except.error "Kernel multiplier must be even"

/-- Stored parameters of a `Patcher` / `Unpatcher`. -/
structure PatcherCfg where
  patchSize : ℕ
  blockInChannels : ℕ
  blockOutChannels : ℕ

/-- `Patcher.__init__` (modules.py lines 139-149): asserts
`out_channels % patch_size == 0`. -/
def patcherInit (inC outC patchSize : ℕ) : Except String PatcherCfg :=
  if outC % patchSize = 0 then
    Except.ok ⟨patchSize, inC, outC / patchSize⟩
  else Except.error "out_channels must be divisible by patch_size"

/-- `Unpatcher.__init__` (modules.py lines 158-168): asserts
`in_channels % patch_size == 0`. -/
def unpatcherInit (inC outC patchSize : ℕ) : Except String PatcherCfg :=
  if inC % patchSize = 0 then
    Except.ok ⟨patchSize, inC / patchSize, outC⟩
  else Except.error "in_channels must be divisible by patch_size"

/-- Runs an initializer over a list of sub-module configurations,
propagating the first construction error (the Python list comprehension of
`nn.ModuleList`). -/
def initAll {α β : Type} (f : α → Except String β) :
    List α → Except String (List β)
  | [] => Except.ok []
  | a :: rest =>
    match f a with
    | Except.error e => Except.error e
    | Except.ok b =>
      match initAll f rest with
      | Except.error e => Except.error e
      | Except.ok bs => Except.ok (b :: bs)

/-- Stored configuration of an `Encoder1d`. -/
structure Encoder1dCfg where
  numLayers : ℤ
  downsampleFactor : ℕ
  outChannels : ℕ
  patchSize : ℕ

/-- `Encoder1d.__init__` (modules.py lines 257-305), in source order:
`num_layers = len(multipliers) - 1`; `out_channels` falls back to
`channels * multipliers[-1]` (an index error on an empty list); the
assertion `len(factors) == num_layers and len(num_blocks) == num_layers`;
the `Patcher` with `out_channels = channels * multipliers[0]`; and the
downsample stages, whose `Downsample1d` uses the default (even) kernel
multiplier 2.  The optional `to_out` projection performs no check. -/
def encoder1dInit (inChannels channels : ℕ)
    (multipliers factors numBlocks : List ℕ) (patchSize : ℕ)
    (outChannels : Option ℕ) : Except String Encoder1dCfg :=
  let numLayers : ℤ := (multipliers.length : ℤ) - 1
  let outCRes : Except String ℕ :=
    match outChannels with
    | some oc => Except.ok oc
    | none =>
      match multipliers.getLast? with
      | some mlast => Except.ok (channels * mlast)
      | none => Except.error "IndexError: multipliers is empty"
  match outCRes with
  | Except.error e => Except.error e
  | Except.ok outC =>
    if (factors.length : ℤ) = numLayers ∧ (numBlocks.length : ℤ) = numLayers then
      match multipliers.head? with
      | none => Except.error "IndexError: multipliers is empty"
      | some m0 =>
        match patcherInit inChannels (channels * m0) patchSize with
        | Except.error e => Except.error e
        | Except.ok _ =>
          match initAll (fun t : ℕ × ℕ × ℕ =>
              downsample1dInit (channels * t.2.1) (channels * t.2.2) t.1 2)
              (factors.zip (multipliers.zip multipliers.tail)) with
          | Except.error e => Except.error e
          | Except.ok _ =>
            Except.ok ⟨numLayers, patchSize * factors.prod, outC, patchSize⟩
    else Except.error
      "assert len(factors) == self.num_layers and len(num_blocks) == self.num_layers"

/-- Stored configuration of a `Decoder1d`. -/
structure Decoder1dCfg where
  numLayers : ℤ
  patchSize : ℕ

/-- `Decoder1d.__init__` (modules.py lines 330-373): the assertion
`len(factors) == num_layers and len(num_blocks) == num_layers`, the
optional `to_in` convolution (no check), the upsample stages (`Upsample1d`
performs no check), and the `Unpatcher` with
`in_channels = channels * multipliers[-1]`. -/
def decoder1dInit (outChannels channels : ℕ)
    (multipliers factors numBlocks : List ℕ) (patchSize : ℕ) :
    Except String Decoder1dCfg :=
  let numLayers : ℤ := (multipliers.length : ℤ) - 1
  if (factors.length : ℤ) = numLayers ∧ (numBlocks.length : ℤ) = numLayers then
    match multipliers.getLast? with
    | none => Except.error "IndexError: multipliers is empty"
    | some mlast =>
      match unpatcherInit (channels * mlast) outChannels patchSize with
      | Except.error e => Except.error e
      | Except.ok _ => Except.ok ⟨numLayers, patchSize⟩
  else Except.error
    "assert len(factors) == num_layers and len(num_blocks) == num_layers"

/-- `Discriminator1d.__init__` (modules.py lines 750-758): builds the
wrapped `Encoder1d` from the forwarded keyword arguments, defaults the
`use_loss` mask to `[True] * num_layers`, and asserts that its length
equals the encoder's `num_layers`. -/
def discriminator1dInit (useLoss : Option (List Bool)) (inChannels channels : ℕ)
    (multipliers factors numBlocks : List ℕ) (patchSize : ℕ)
    (outChannels : Option ℕ) : Except String (Encoder1dCfg × List Bool) :=
  match encoder1dInit inChannels channels multipliers factors numBlocks
      patchSize outChannels with
  | Except.error e => Except.error e
  | Except.ok enc =>
    let ul : List Bool :=
      match useLoss with
      | some l => l
      | none => List.replicate (multipliers.length - 1) true
    if (ul.length : ℤ) = enc.numLayers then Except.ok (enc, ul)
    else Except.error "use_loss length must match the number of layers"

theorem downsample1dInit_default_multiplier (a b f : ℕ) :
    downsample1dInit a b f 2 = Except.ok ⟨a, b, f * 2 + 1, f, f * 1⟩ := rfl

theorem initAll_downsample_ok (channels : ℕ) (l : List (ℕ × ℕ × ℕ)) :
    ∃ r, initAll (fun t : ℕ × ℕ × ℕ =>
      downsample1dInit (channels * t.2.1) (channels * t.2.2) t.1 2) l =
      Except.ok r := by
  induction l with
  | nil => exact ⟨[], rfl⟩
  | cons a rest ih =>
    obtain ⟨r, hr⟩ := ih
    refine ⟨⟨channels * a.2.1, channels * a.2.2, a.1 * 2 + 1, a.1, a.1 * 1⟩ :: r, ?_⟩
    unfold initAll
    rw [downsample1dInit_default_multiplier, hr]

/-- C6: construction fails exactly when a constructor precondition is
violated — `Downsample1d` errors iff the kernel multiplier is odd;
`Patcher` iff `out_channels % patch_size ≠ 0`; `Unpatcher` iff
`in_channels % patch_size ≠ 0`; `Encoder1d` succeeds iff
`len(factors) = len(multipliers) - 1`, `len(num_blocks) =
len(multipliers) - 1` and its `Patcher` check passes; `Decoder1d` succeeds
iff the two length conditions and its `Unpatcher` check pass; and
`Discriminator1d` succeeds iff its wrapped encoder does and the given
`use_loss` mask has length `num_layers` (a missing mask defaults to the
right length).  All checks run at construction; the embedded forward
passes below are total functions that never fail. -/
theorem construction_fails_iff_precondition_violated :
    (∀ inC outC factor k,
      (downsample1dInit inC outC factor k).isOk = true ↔ k % 2 = 0) ∧
    (∀ inC outC p, (patcherInit inC outC p).isOk = true ↔ outC % p = 0) ∧
    (∀ inC outC p, (unpatcherInit inC outC p).isOk = true ↔ inC % p = 0) ∧
    (∀ inC ch mult fact nb p oc,
      (encoder1dInit inC ch mult fact nb p oc).isOk = true ↔
        ((fact.length : ℤ) = (mult.length : ℤ) - 1 ∧
         (nb.length : ℤ) = (mult.length : ℤ) - 1 ∧
         (ch * mult.headI) % p = 0)) ∧
    (∀ outC ch mult fact nb p,
      (decoder1dInit outC ch mult fact nb p).isOk = true ↔
        ((fact.length : ℤ) = (mult.length : ℤ) - 1 ∧
         (nb.length : ℤ) = (mult.length : ℤ) - 1 ∧
         (ch * mult.getLastI) % p = 0)) ∧
    (∀ ul inC ch mult fact nb p oc,
      (discriminator1dInit ul inC ch mult fact nb p oc).isOk = true ↔
        ((encoder1dInit inC ch mult fact nb p oc).isOk = true ∧
         ∀ l, ul = some l → (l.length : ℤ) = (mult.length : ℤ) - 1)) := by
  have hpatch : ∀ inC outC p, (patcherInit inC outC p).isOk = true ↔ outC % p = 0 := by
    intro inC outC p
    unfold patcherInit
    by_cases h : outC % p = 0 <;> simp [h, Except.isOk, Except.toBool]
  have hunpatch : ∀ inC outC p,
      (unpatcherInit inC outC p).isOk = true ↔ inC % p = 0 := by
    intro inC outC p
    unfold unpatcherInit
    by_cases h : inC % p = 0 <;> simp [h, Except.isOk, Except.toBool]
  have henc : ∀ inC ch mult fact nb p oc,
      (encoder1dInit inC ch mult fact nb p oc).isOk = true ↔
        ((fact.length : ℤ) = (mult.length : ℤ) - 1 ∧
         (nb.length : ℤ) = (mult.length : ℤ) - 1 ∧
         (ch * mult.headI) % p = 0) := by
    intro inC ch mult fact nb p oc
    cases mult with
    | nil =>
      refine iff_of_false ?_ ?_
      · cases oc with
        | none =>
          intro h
          simp [encoder1dInit, Except.isOk, Except.toBool] at h
        | some oc0 =>
          intro h
          unfold encoder1dInit at h
          dsimp only at h
          split at h
          · simp [Except.isOk, Except.toBool] at h
          · simp [Except.isOk, Except.toBool] at h
      · intro h
        have h1 := h.1
        simp only [List.length_nil] at h1
        omega
    | cons m0 rest =>
      obtain ⟨mlast, hlast⟩ : ∃ y, (m0 :: rest).getLast? = some y :=
        Option.isSome_iff_exists.mp (by simp)
      by_cases hcond : (fact.length : ℤ) = ((m0 :: rest).length : ℤ) - 1 ∧
          (nb.length : ℤ) = ((m0 :: rest).length : ℤ) - 1
      · by_cases hdiv : (ch * m0) % p = 0
        · have hpat : patcherInit inC (ch * m0) p =
              Except.ok ⟨p, inC, (ch * m0) / p⟩ := by
            unfold patcherInit
            rw [if_pos hdiv]
          obtain ⟨r, hr⟩ := initAll_downsample_ok ch
            (fact.zip ((m0 :: rest).zip rest))
          cases oc with
          | none =>
            simp [encoder1dInit, hlast, hpat, hr, hcond.1, hcond.2, hdiv,
              Except.isOk, Except.toBool]
          | some oc0 =>
            simp [encoder1dInit, hpat, hr, hcond.1, hcond.2, hdiv,
              Except.isOk, Except.toBool]
        · refine iff_of_false ?_ ?_
          · have hpat : patcherInit inC (ch * m0) p =
                Except.error "out_channels must be divisible by patch_size" := by
              unfold patcherInit
              rw [if_neg hdiv]
            cases oc with
            | none =>
              simp [encoder1dInit, hlast, hpat, hcond.1, hcond.2,
                Except.isOk, Except.toBool]
            | some oc0 =>
              simp [encoder1dInit, hpat, hcond.1, hcond.2,
                Except.isOk, Except.toBool]
          · intro h
            exact hdiv h.2.2
      · have hcond' : ¬(fact.length = rest.length ∧ nb.length = rest.length) := by
          intro hc
          refine hcond ⟨?_, ?_⟩ <;> simp [hc.1, hc.2]
        refine iff_of_false ?_ ?_
        · cases oc with
          | none =>
            simp [encoder1dInit, hlast, hcond', Except.isOk, Except.toBool]
          | some oc0 =>
            simp [encoder1dInit, hcond', Except.isOk, Except.toBool]
        · intro h
          exact hcond ⟨h.1, h.2.1⟩
  refine ⟨?_, hpatch, hunpatch, henc, ?_, ?_⟩
  · intro inC outC factor k
    unfold downsample1dInit
    by_cases h : k % 2 = 0 <;> simp [h, Except.isOk, Except.toBool]
  · intro outC ch mult fact nb p
    cases mult with
    | nil =>
      refine iff_of_false ?_ ?_
      · intro h
        unfold decoder1dInit at h
        dsimp only at h
        split at h
        · simp [Except.isOk, Except.toBool] at h
        · simp [Except.isOk, Except.toBool] at h
      · intro h
        have h1 := h.1
        simp only [List.length_nil] at h1
        omega
    | cons m0 rest =>
      have hlast : (m0 :: rest).getLast? = some ((m0 :: rest).getLastI) := by
        cases h : (m0 :: rest).getLast? with
        | none => simp at h
        | some y =>
          rw [List.getLastI_eq_getLast?, h]
      by_cases hcond : (fact.length : ℤ) = ((m0 :: rest).length : ℤ) - 1 ∧
          (nb.length : ℤ) = ((m0 :: rest).length : ℤ) - 1
      · by_cases hdiv : (ch * (m0 :: rest).getLastI) % p = 0
        · have hup : unpatcherInit (ch * (m0 :: rest).getLastI) outC p =
              Except.ok ⟨p, (ch * (m0 :: rest).getLastI) / p, outC⟩ := by
            unfold unpatcherInit
            rw [if_pos hdiv]
          simp [decoder1dInit, hlast, hup, hcond.1, hcond.2, hdiv,
            Except.isOk, Except.toBool]
        · refine iff_of_false ?_ ?_
          · have hup : unpatcherInit (ch * (m0 :: rest).getLastI) outC p =
                Except.error "in_channels must be divisible by patch_size" := by
              unfold unpatcherInit
              rw [if_neg hdiv]
            simp [decoder1dInit, hlast, hup, hcond.1, hcond.2,
              Except.isOk, Except.toBool]
          · intro h
            exact hdiv h.2.2
      · have hcond' : ¬(fact.length = rest.length ∧ nb.length = rest.length) := by
          intro hc
          refine hcond ⟨?_, ?_⟩ <;> simp [hc.1, hc.2]
        refine iff_of_false ?_ ?_
        · simp [decoder1dInit, hcond', Except.isOk, Except.toBool]
        · intro h
          exact hcond ⟨h.1, h.2.1⟩
  · intro ul inC ch mult fact nb p oc
    cases hE : encoder1dInit inC ch mult fact nb p oc with
    | error e =>
      refine iff_of_false ?_ ?_
      · intro h
        unfold discriminator1dInit at h
        rw [hE] at h
        simp [Except.isOk, Except.toBool] at h
      · intro h
        have h1 := h.1
        simp [Except.isOk, Except.toBool] at h1
    | ok enc =>
      have hEok : (encoder1dInit inC ch mult fact nb p oc).isOk = true := by
        rw [hE]
        rfl
      have hnl : enc.numLayers = (mult.length : ℤ) - 1 := by
        have h2 := hE
        unfold encoder1dInit at h2
        dsimp only at h2
        repeat' split at h2
        all_goals cases h2 <;> rfl
      have hlen1 : 1 ≤ mult.length := by
        have := ((henc inC ch mult fact nb p oc).mp hEok).1
        cases mult with
        | nil =>
          simp only [List.length_nil, Nat.cast_zero] at this
          omega
        | cons a b => simp
      unfold discriminator1dInit
      rw [hE]
      dsimp only
      cases ul with
      | none =>
        have hdef : ((List.replicate (mult.length - 1) true).length : ℤ) =
            enc.numLayers := by
          rw [hnl, List.length_replicate]
          omega
        rw [if_pos hdef]
        simp [Except.isOk, Except.toBool, hEok]
      | some l =>
        by_cases hul : (l.length : ℤ) = (mult.length : ℤ) - 1
        · rw [if_pos (by rw [hnl]; exact hul)]
          simp [Except.isOk, Except.toBool, hEok, hul]
        · rw [if_neg (by rw [hnl]; exact hul)]
          simp [Except.isOk, Except.toBool, hEok, hul]

theorem construction_fails_iff_precondition_violated_witness :
    ((downsample1dInit 1 1 2 3).isOk = true ↔ 3 % 2 = 0) ∧
    ((patcherInit 1 4 2).isOk = true ↔ 4 % 2 = 0) ∧
    ((encoder1dInit 1 8 [1, 2, 4] [2, 2] [1, 1] 1 none).isOk = true ↔
      (((2 : ℕ) : ℤ) = ((3 : ℕ) : ℤ) - 1 ∧ ((2 : ℕ) : ℤ) = ((3 : ℕ) : ℤ) - 1 ∧
       (8 * [1, 2, 4].headI) % 1 = 0)) := by
  have h := construction_fails_iff_precondition_violated
  exact ⟨h.1 1 1 2 3, h.2.1 1 4 2, by
    have := h.2.2.2.1 1 8 [1, 2, 4] [2, 2] [1, 1] 1 none
    simpa using this⟩

/-! ### Encoder forward pass, info record and discriminator pairing
(modules.py lines 307-326 and 760-788)

The forward passes are polymorphic in the activation type `α`, with every
learned submodule an opaque function; the theorems hold for all weights.
Python `str` keys are lists of characters; a Python dict is a partial map
from keys to info values, and `{**a, **b}` lets keys of `b` win. -/

/-- Values stored in the auxiliary info mapping. -/
inductive InfoVal (α : Type) where
  | tensor : α → InfoVal α
  | tensorList : List α → InfoVal α
  | scalar : ℝ → InfoVal α

/-- A Python `str` key. -/
abbrev Key : Type := List Char

/-- A Python dict carrying info values. -/
abbrev Dict (α : Type) : Type := Key → Option (InfoVal α)

/-- Python dict merge `{**a, **b}` (modules.py line 324): a key present in
`b` hides the entry of `a`. -/
def mergeDicts {α : Type} (a b : Dict α) : Dict α := fun k =>
  match b k with
  | some v => some v
  | none => a k

/-- Modelled from the spec: `prefix_dict(prefix, d)` is imported from
`utils.py`, which is not part of the provided sources; per the spec
(sections 3 and 9), info maps are merged "with variant-specific key
prefixes", i.e. key `k` of `d` is renamed to `prefix ++ k`. -/
def pfxDict {α : Type} (p : Key) (d : Dict α) : Dict α := fun k =>
  if p = List.take (List.length p) k then d (List.drop (List.length p) k)
  else none

/-- The fixed key prefix used for every bottleneck at modules.py
line 324. -/
def bottleneckPfx : Key := "bottleneck_".toList

/-- The key under which the activation list is recorded (line 320). -/
def xsKey : Key := "xs".toList

/-- A bottleneck module: `forward(x, with_info=True)` returns the
transformed activation and an info mapping. -/
structure BottleneckM (α : Type) where
  run : α → α × Dict α

/-- An `Encoder1d` instance: the `Patcher`, the downsample stages, the
final projection and the bottleneck sequence. -/
structure Encoder1dM (α : Type) where
  toIn : α → α
  downsamples : List (α → α)
  toOut : α → α
  bottlenecks : List (BottleneckM α)

/-- Ties the module to its configuration as `Encoder1d.__init__` does
(modules.py lines 297-305): `to_out` is the learned 1×1 projection when
`out_channels` was given and `nn.Identity()` otherwise. -/
def encoder1dModule {α : Type} (outChannels : Option ℕ) (toIn : α → α)
    (downsamples : List (α → α)) (proj : α → α)
    (bottlenecks : List (BottleneckM α)) : Encoder1dM α :=
  ⟨toIn, downsamples, if outChannels.isSome then proj else id, bottlenecks⟩

/-- Sequential application of the downsample stages (the `for downsample
in self.downsamples` loop, lines 314-316). -/
def encChain {α : Type} (ds : List (α → α)) (x : α) : α :=
  ds.foldl (fun a d => d a) x

/-- The `xs` list accumulated by `Encoder1d.forward` (lines 310-319): the
raw input, the patched input, every downsample-stage output in order, and
the `to_out` output. -/
def encXs {α : Type} (e : Encoder1dM α) (x : α) : List α :=
  let x1 := e.toIn x
  let st := e.downsamples.foldl
    (fun (s : α × List α) d => (d s.1, s.2 ++ [d s.1])) (x1, [x, x1])
  st.2 ++ [e.toOut st.1]

/-- The activation handed to the first bottleneck (the value of `x` after
line 318). -/
def encPreBottleneck {α : Type} (e : Encoder1dM α) (x : α) : α :=
  e.toOut (encChain e.downsamples (e.toIn x))

/-- The bottleneck loop of `Encoder1d.forward` (lines 322-324): each
bottleneck transforms the running activation, and its info mapping is
merged into the shared info under the `"bottleneck_"` prefix, later
entries overriding earlier ones. -/
def runBottlenecks {α : Type} (bs : List (BottleneckM α)) (x : α)
    (info : Dict α) : α × Dict α :=
  bs.foldl (fun s b =>
    ((b.run s.1).1, mergeDicts s.2 (pfxDict bottleneckPfx (b.run s.1).2))) (x, info)

/-- The info record created at line 320: `info = dict(xs=xs)`. -/
def encInfoInit {α : Type} (e : Encoder1dM α) (x : α) : Dict α := fun k =>
  if k = xsKey then some (InfoVal.tensorList (encXs e x)) else none

/-- `Encoder1d.forward(x, with_info=True)` (lines 307-326): the returned
activation and the info mapping, whose initial entry is `xs`. -/
def encForwardInfo {α : Type} (e : Encoder1dM α) (x : α) : α × Dict α :=
  runBottlenecks e.bottlenecks (encPreBottleneck e x) (encInfoInit e x)

theorem encXs_foldl_pair {α : Type} (ds : List (α → α)) :
    ∀ (x1 : α) (acc : List α),
      ds.foldl (fun (s : α × List α) d => (d s.1, s.2 ++ [d s.1]))
          (x1, acc ++ [x1]) =
        (encChain ds x1, acc ++ List.scanl (fun a d => d a) x1 ds) := by
  induction ds with
  | nil =>
    intro x1 acc
    simp [encChain]
  | cons d ds' ih =>
    intro x1 acc
    rw [List.foldl_cons, List.scanl_cons]
    dsimp only
    rw [ih (d x1) (acc ++ [x1])]
    simp [encChain, List.append_assoc]

theorem encXs_eq {α : Type} (e : Encoder1dM α) (x : α) :
    encXs e x =
      x :: List.scanl (fun a d => d a) (e.toIn x) e.downsamples ++
        [e.toOut (encChain e.downsamples (e.toIn x))] := by
  unfold encXs
  dsimp only
  have h := encXs_foldl_pair e.downsamples (e.toIn x) [x]
  simp only [List.singleton_append] at h
  rw [h]

theorem encXs_length {α : Type} (e : Encoder1dM α) (x : α) :
    (encXs e x).length = e.downsamples.length + 3 := by
  rw [encXs_eq]
  simp only [List.length_append, List.length_cons, List.length_scanl,
    List.length_nil]

theorem scanl_getLast_eq_foldl {α : Type} (g : α → (α → α) → α) :
    ∀ (ds : List (α → α)) (x1 : α),
      (List.scanl g x1 ds).getLast? = some (ds.foldl g x1) := by
  intro ds
  induction ds with
  | nil => intro x1; rfl
  | cons d ds' ih =>
    intro x1
    rw [List.scanl_cons, List.foldl_cons]
    have h := ih (g x1 d)
    cases hsc : List.scanl g (g x1 d) ds' with
    | nil =>
      have := List.length_scanl (f := g) (g x1 d) ds'
      rw [hsc] at this
      simp at this
    | cons y t =>
      rw [hsc] at h
      show (y :: t).getLast? = _
      exact h

/-- C9: for every `Encoder1d` with `N` downsample stages and every input,
the `xs` entry of the info record lists exactly `N + 3` activations in
input-to-output order — the raw input, the `Patcher` output, the `N` stage
outputs, and the `to_out` output — and when no explicit `out_channels` was
configured the projection is the identity, so the last entry equals the
preceding one. -/
theorem encoder_xs_structure {α : Type} (oc : Option ℕ) (toIn : α → α)
    (ds : List (α → α)) (proj : α → α) (bots : List (BottleneckM α)) (x : α) :
    encXs (encoder1dModule oc toIn ds proj bots) x =
      x :: List.scanl (fun a d => d a) (toIn x) ds ++
        [(encoder1dModule oc toIn ds proj bots).toOut (encChain ds (toIn x))] ∧
    (encXs (encoder1dModule oc toIn ds proj bots) x).length = ds.length + 3 ∧
    (oc = none →
      (encXs (encoder1dModule oc toIn ds proj bots) x).getLast? =
        (x :: List.scanl (fun a d => d a) (toIn x) ds).getLast?) := by
  refine ⟨encXs_eq _ x, encXs_length _ x, ?_⟩
  intro hnone
  rw [encXs_eq]
  show ((x :: List.scanl (fun a d => d a) (toIn x) ds) ++
      [(encoder1dModule oc toIn ds proj bots).toOut (encChain ds (toIn x))]).getLast? = _
  rw [List.getLast?_concat]
  have hid : (encoder1dModule oc toIn ds proj bots).toOut = id := by
    unfold encoder1dModule
    rw [hnone]
    rfl
  rw [hid]
  show some (encChain ds (toIn x)) = _
  rw [show (x :: List.scanl (fun a d => d a) (toIn x) ds).getLast? =
      (List.scanl (fun a d => d a) (toIn x) ds).getLast? from ?_]
  · rw [scanl_getLast_eq_foldl]
    rfl
  · cases hsc : List.scanl (fun a d => d a) (toIn x) ds with
    | nil =>
      have := List.length_scanl (f := fun a d => d a) (toIn x) ds
      rw [hsc] at this
      simp at this
    | cons y t => rfl

theorem encoder_xs_structure_witness :
    (encXs (encoder1dModule (α := ℕ) none (fun a => a + 1)
        [fun a => a * 2] (fun a => a + 100) []) 5 =
      5 :: List.scanl (fun a d => d a) 6 [fun a => a * 2] ++
        [(encoder1dModule (α := ℕ) none (fun a => a + 1)
          [fun a => a * 2] (fun a => a + 100) []).toOut
            (encChain [fun a => a * 2] 6)] ∧
     (encXs (encoder1dModule (α := ℕ) none (fun a => a + 1)
        [fun a => a * 2] (fun a => a + 100) []) 5).length = 1 + 3 ∧
     (none = (none : Option ℕ) →
       (encXs (encoder1dModule (α := ℕ) none (fun a => a + 1)
          [fun a => a * 2] (fun a => a + 100) []) 5).getLast? =
         (5 :: List.scanl (fun a d => d a) 6 [fun a => a * 2]).getLast?)) :=
  encoder_xs_structure none (fun a => a + 1) [fun a => a * 2]
    (fun a => a + 100) [] 5

/-- The per-stage loop of `Discriminator1d.forward` (modules.py lines
771-784): `zip(self.use_loss, xs_true, xs_fake)` truncates to the shortest
argument, and a stage contributes its pair of true/fake activations to the
loss lists exactly when its mask entry is true (the contributed pair is
then chunked into score/feature halves and turned into the `loss_gs` /
`loss_ds` entries, so `loss_g` and `loss_d` are functions of these pairs
alone). -/
def discPairs {α : Type} (useLoss : List Bool) (xsT xsF : List α) :
    List (α × α) :=
  (useLoss.zip (xsT.zip xsF)).filterMap fun t =>
    if t.1 then some t.2 else none

theorem zip_take_len {β γ : Type} : ∀ (l : List β) (m : List γ),
    l.zip m = l.zip (m.take l.length) := by
  intro l
  induction l with
  | nil => intro m; rfl
  | cons a l' ih =>
    intro m
    cases m with
    | nil => rfl
    | cons b m' =>
      show (a, b) :: l'.zip m' = (a, b) :: l'.zip (m'.take l'.length)
      rw [ih m']

theorem discPairs_take {α : Type} (u : List Bool) (A B : List α)
    (n : ℕ) (hn : u.length = n) :
    discPairs u A B = discPairs u (A.take n) (B.take n) := by
  subst hn
  unfold discPairs
  have h1 : u.zip (A.zip B) = u.zip ((A.zip B).take u.length) :=
    zip_take_len u (A.zip B)
  have h2 : (A.zip B).take u.length =
      (A.take u.length).zip (B.take u.length) := by
    simp [List.zip, List.take_zipWith]
  rw [h1, h2]

theorem discPairs_replicate_true {α : Type} :
    ∀ (n : ℕ) (A B : List α),
      discPairs (List.replicate n true) A B = (A.zip B).take n := by
  intro n
  induction n with
  | zero => intro A B; rfl
  | succ n' ih =>
    intro A B
    cases A with
    | nil => rfl
    | cons a A' =>
      cases B with
      | nil => rfl
      | cons b B' =>
        show ((true :: List.replicate n' true).zip
            ((a, b) :: A'.zip B')).filterMap _ = _
        rw [List.zip_cons_cons, List.filterMap_cons]
        dsimp only
        rw [if_pos rfl]
        show (a, b) :: discPairs (List.replicate n' true) A' B' = _
        rw [ih A' B']
        rfl

/-- C8: the discriminator pairs the i-th mask entry with the i-th recorded
activation after the raw input; the recorded sequence minus the raw input
has `N + 2` entries while the mask has `N`, so the pairs actually consumed
are exactly those of the first `N` entries — the last downsample stage's
output and the final projection's output never contribute, even when every
mask entry is true. -/
theorem discriminator_skips_last_two {α : Type} (e : Encoder1dM α)
    (useLoss : List Bool) (hlen : useLoss.length = e.downsamples.length)
    (t f : α) :
    ((encXs e t).drop 1).length = e.downsamples.length + 2 ∧
    discPairs useLoss ((encXs e t).drop 1) ((encXs e f).drop 1) =
      discPairs useLoss (((encXs e t).drop 1).take e.downsamples.length)
        (((encXs e f).drop 1).take e.downsamples.length) ∧
    (useLoss = List.replicate e.downsamples.length true →
      discPairs useLoss ((encXs e t).drop 1) ((encXs e f).drop 1) =
        (((encXs e t).drop 1).take e.downsamples.length).zip
          (((encXs e f).drop 1).take e.downsamples.length)) := by
  refine ⟨?_, ?_, ?_⟩
  · rw [List.length_drop, encXs_length]
    omega
  · exact discPairs_take useLoss _ _ e.downsamples.length hlen
  · intro hrep
    subst hrep
    rw [discPairs_replicate_true]
    simp [List.zip, List.take_zipWith]

theorem discriminator_skips_last_two_witness :
    ((List.replicate 1 true).length =
      (Encoder1dM.mk (α := ℕ) (fun a => a + 1) [fun a => a * 2]
        (fun a => a + 7) []).downsamples.length) ∧
    ((encXs (Encoder1dM.mk (α := ℕ) (fun a => a + 1) [fun a => a * 2]
        (fun a => a + 7) []) 4).drop 1).length = 1 + 2 :=
  ⟨by decide,
   (discriminator_skips_last_two
      (Encoder1dM.mk (α := ℕ) (fun a => a + 1) [fun a => a * 2]
        (fun a => a + 7) [])
      (List.replicate 1 true) (by decide) 4 9).1⟩

/-- The running activation threaded through the bottleneck sequence (the
`x` updates of line 323). -/
def botChain {α : Type} (bs : List (BottleneckM α)) (x : α) : α :=
  bs.foldl (fun a b => (b.run a).1) x

theorem runBottlenecks_fst {α : Type} :
    ∀ (bs : List (BottleneckM α)) (x : α) (i : Dict α),
      (runBottlenecks bs x i).1 = botChain bs x := by
  intro bs
  induction bs with
  | nil => intro x i; rfl
  | cons b bs' ih =>
    intro x i
    show (runBottlenecks bs' (b.run x).1 _).1 = botChain bs' (b.run x).1
    exact ih _ _

theorem pfxDict_append {α : Type} (p k : Key) (d : Dict α) :
    pfxDict p d (p ++ k) = d k := by
  unfold pfxDict
  rw [if_pos (List.take_left p k).symm, List.drop_left]

theorem runBottlenecks_snoc_lookup {α : Type} (l : List (BottleneckM α))
    (b : BottleneckM α) (x : α) (i : Dict α) (k : Key) (v : InfoVal α)
    (h : (b.run (botChain l x)).2 k = some v) :
    (runBottlenecks (l ++ [b]) x i).2 (bottleneckPfx ++ k) = some v := by
  unfold runBottlenecks
  rw [List.foldl_append]
  show (mergeDicts (runBottlenecks l x i).2
      (pfxDict bottleneckPfx (b.run (runBottlenecks l x i).1).2))
      (bottleneckPfx ++ k) = some v
  rw [runBottlenecks_fst]
  unfold mergeDicts
  rw [pfxDict_append, h]

/-- C10: every bottleneck merges its info entries into the shared info map
under the same fixed prefix `"bottleneck_"`; when an earlier bottleneck
`b1` and the final bottleneck `b2` both report the key `k` (each evaluated
at its own input in the chain), the info map holds `b1`'s value right
after `b1` runs, but the returned map holds `b2`'s value: the later entry
silently overwrites the earlier one. -/
theorem bottleneck_info_later_overwrites {α : Type} (e : Encoder1dM α)
    (pre mid : List (BottleneckM α)) (b1 b2 : BottleneckM α) (x : α)
    (k : Key) (v1 v2 : InfoVal α)
    (hbots : e.bottlenecks = pre ++ b1 :: mid ++ [b2])
    (h1 : (b1.run (botChain pre (encPreBottleneck e x))).2 k = some v1)
    (h2 : (b2.run (botChain (pre ++ b1 :: mid)
      (encPreBottleneck e x))).2 k = some v2) :
    (runBottlenecks (pre ++ [b1]) (encPreBottleneck e x)
      (encInfoInit e x)).2 (bottleneckPfx ++ k) = some v1 ∧
    (encForwardInfo e x).2 (bottleneckPfx ++ k) = some v2 := by
  constructor
  · exact runBottlenecks_snoc_lookup pre b1 _ _ k v1 h1
  · unfold encForwardInfo
    rw [hbots, show pre ++ b1 :: mid ++ [b2] = (pre ++ b1 :: mid) ++ [b2] by
      simp]
    exact runBottlenecks_snoc_lookup (pre ++ b1 :: mid) b2 _ _ k v2 h2

/-- A first bottleneck instance with a constant info record. -/
def cexBot1 : BottleneckM ℕ :=
  ⟨fun a => (a + 1, fun _ => some (InfoVal.scalar 1))⟩

/-- A second bottleneck instance reporting the same keys as the first. -/
def cexBot2 : BottleneckM ℕ :=
  ⟨fun a => (a * 2, fun _ => some (InfoVal.scalar 2))⟩

/-- An encoder carrying the two bottlenecks above. -/
def cexEncoder : Encoder1dM ℕ := ⟨id, [], id, [cexBot1, cexBot2]⟩

theorem bottleneck_info_later_overwrites_witness :
    (runBottlenecks [cexBot1] (encPreBottleneck cexEncoder 0)
      (encInfoInit cexEncoder 0)).2 (bottleneckPfx ++ []) =
        some (InfoVal.scalar 1) ∧
    (encForwardInfo cexEncoder 0).2 (bottleneckPfx ++ []) =
      some (InfoVal.scalar 2) :=
  bottleneck_info_later_overwrites cexEncoder [] [] cexBot1 cexBot2 0 []
    (InfoVal.scalar 1) (InfoVal.scalar 2) rfl rfl rfl

end AudioEncoders
